import Mathlib

/-!
Verification of the browser-side scheduling UI scripts of the repository
(`school-timetabling` and `bed-allocation` `app.js`) and of the documented
pre-solve pinning invariant.

The JavaScript sources are shallowly embedded: strings are `String`/`List Char`,
JavaScript numbers produced by `parseInt(..., 10)` are `Int`, `null`/`undefined`
are `Option`, the regex scan of `getScoreComponents` is an explicit left-to-right
matcher, the DOM side effects of the rendering functions are modelled as the
lists of elements appended to each container, and the mutable globals
(`autoRefreshIntervalId`, `COLOR_MAP`, `nextColorIndex`) are explicit state
records threaded through the functions that read and write them.
-/

/-- The three score levels named by the regex `(-?[0-9]+)(hard|medium|soft)` in
`getScoreComponents` (app.js). -/
inductive ScoreLevel where
  | hard
  | medium
  | soft
deriving DecidableEq

/-- The characters of a level name, in the alternation order of the regex. -/
def levelName : ScoreLevel → List Char
  | .hard => ['h', 'a', 'r', 'd']
  | .medium => ['m', 'e', 'd', 'i', 'u', 'm']
  | .soft => ['s', 'o', 'f', 't']

/-- Numeric value of a decimal digit character. -/
def digitVal (c : Char) : Nat := c.toNat - 48

/-- Value of a nonempty run of decimal digits, as `parseInt(…, 10)` computes it. -/
def parseNatDigits (ds : List Char) : Nat :=
  ds.foldl (fun a c => a * 10 + digitVal c) 0

/-- `stripExact p cs` removes the exact sequence `p` from the front of `cs`,
failing if `p` is not literally there (the regex alternative match). -/
def stripExact : List Char → List Char → Option (List Char)
  | [], cs => some cs
  | _ :: _, [] => none
  | p :: ps, c :: cs => if p = c then stripExact ps cs else none

/-- Try the alternation `hard|medium|soft` at the front of `cs`. -/
def tryLevel (cs : List Char) : Option (ScoreLevel × List Char) :=
  match stripExact (levelName .hard) cs with
  | some rest => some (.hard, rest)
  | none =>
    match stripExact (levelName .medium) cs with
    | some rest => some (.medium, rest)
    | none =>
      match stripExact (levelName .soft) cs with
      | some rest => some (.soft, rest)
      | none => none

/-- The digits-then-level part of the pattern, after the optional sign was
consumed (`neg` records whether a leading `-` was taken). -/
def tryAfterSign (neg : Bool) (cs : List Char) : Option ((Int × ScoreLevel) × List Char) :=
  let ds := cs.takeWhile (fun c => c.isDigit)
  let afterDigits := cs.dropWhile (fun c => c.isDigit)
  if ds.isEmpty then none
  else
    match tryLevel afterDigits with
    | some (lvl, rest) =>
      let n : Int := Int.ofNat (parseNatDigits ds)
      some ((if neg then -n else n, lvl), rest)
    | none => none

/-- Try the whole pattern `(-?[0-9]+)(hard|medium|soft)` anchored at the front of
`cs`; on success return the signed value, the level, and the unconsumed rest. -/
def tryMatch : List Char → Option ((Int × ScoreLevel) × List Char)
  | '-' :: r => tryAfterSign true r
  | cs => tryAfterSign false cs

/-- The left-to-right non-overlapping scan performed by
`score.matchAll(/(-?[0-9]+)(hard|medium|soft)/g)`: at each position try the
pattern; on success continue after the match, otherwise advance one character.
The fuel argument only serves termination; `scoreMatches` supplies enough. -/
def scanAux : Nat → List Char → List (Int × ScoreLevel)
  | 0, _ => []
  | _ + 1, [] => []
  | fuel + 1, c :: cs =>
    match tryMatch (c :: cs) with
    | some (m, rest) => m :: scanAux fuel rest
    | none => scanAux fuel cs

/-- All matches of the score regex over a character list. -/
def scoreMatches (cs : List Char) : List (Int × ScoreLevel) :=
  scanAux cs.length cs

/-- The record `{hard: …, medium: …, soft: …}` built by `getScoreComponents`. -/
structure ScoreComponents where
  hard : Int
  medium : Int
  soft : Int
deriving DecidableEq

/-- Record one match: `components[parts[2]] = parseInt(parts[1], 10)`. -/
def applyMatch (comps : ScoreComponents) (m : Int × ScoreLevel) : ScoreComponents :=
  match m.2 with
  | .hard => { comps with hard := m.1 }
  | .medium => { comps with medium := m.1 }
  | .soft => { comps with soft := m.1 }

/-- Fold the matches over the initial record `{hard: 0, medium: 0, soft: 0}`,
each match overwriting its level field. -/
def applyMatches (ms : List (Int × ScoreLevel)) : ScoreComponents :=
  ms.foldl applyMatch ⟨0, 0, 0⟩

/-- `getScoreComponents(score)` from app.js (identical in both example apps). -/
def getScoreComponents (score : String) : ScoreComponents :=
  applyMatches (scoreMatches score.data)

/-- The comparator passed to `constraints.sort` inside `analyze()` (app.js,
identical in both example apps), on already-parsed components.
`Math.abs` is `Int.natAbs`; the returned value only matters through its sign. -/
def cmpConstraints (a b : ScoreComponents) : Int :=
  if a.hard < 0 ∧ 0 < b.hard then -1
  else if 0 < a.hard ∧ b.soft < 0 then 1
  else if b.hard.natAbs < a.hard.natAbs then -1
  else if a.medium < 0 ∧ 0 < b.medium then -1
  else if 0 < a.medium ∧ b.medium < 0 then 1
  else if b.medium.natAbs < a.medium.natAbs then -1
  else if a.soft < 0 ∧ 0 < b.soft then -1
  else if 0 < a.soft ∧ b.soft < 0 then 1
  else (b.soft.natAbs : Int) - (a.soft.natAbs : Int)

/-- One entry of `scoreAnalysis.constraints` as received from the server:
`name`, a constraint `weight` score string, a `score` score string, and the
match justifications (`matchList` models the JSON field `matches`, whose name is
a Lean keyword). -/
structure ConstraintAnalysis where
  name : String
  weight : String
  score : String
  matchList : List String
deriving DecidableEq

/-- The sort comparator of `analyze()` applied to two constraint rows:
it parses each row's `score` string and compares the components. -/
def rowCmp (a b : ConstraintAnalysis) : Int :=
  cmpConstraints (getScoreComponents a.score) (getScoreComponents b.score)

/-- The spec's order at a single score level: a negative entry precedes a
positive one, otherwise the larger absolute value comes first. -/
def specLevelLt (x y : Int) : Prop :=
  (x < 0 ∧ 0 < y) ∨ (¬(y < 0 ∧ 0 < x) ∧ y.natAbs < x.natAbs)

instance (x y : Int) : Decidable (specLevelLt x y) := by
  unfold specLevelLt
  infer_instance

/-- The spec's Score order (`comparison is lexicographic — hard dominates medium
dominates soft`), with `specLevelLt` at each level. -/
def specLexLt (a b : ScoreComponents) : Prop :=
  specLevelLt a.hard b.hard ∨
    (a.hard = b.hard ∧
      (specLevelLt a.medium b.medium ∨
        (a.medium = b.medium ∧ specLevelLt a.soft b.soft)))

instance (a b : ScoreComponents) : Decidable (specLexLt a b) := by
  unfold specLexLt
  infer_instance

/-! ### Canonical score strings

`scoreStr3`/`scoreStr2` build the score strings the solver emits
(such as `"-2hard/0medium/0soft"` or `"0hard/9soft"`): each level value is printed as a
signed base-10 integer immediately preceding the level name. -/

/-- The character of a decimal digit. -/
def natDigitChar (d : Nat) : Char := Char.ofNat (48 + d)

/-- Base-10 digit characters of a natural number, most significant first. -/
def natChars (n : Nat) : List Char :=
  if n = 0 then ['0'] else ((Nat.digits 10 n).reverse).map natDigitChar

/-- Base-10 rendering of a signed integer. -/
def intChars (v : Int) : List Char :=
  if v < 0 then '-' :: natChars v.natAbs else natChars v.natAbs

/-- A three-level score string `"<h>hard/<m>medium/<s>soft"`. -/
def scoreStr3 (h m s : Int) : String :=
  String.mk (intChars h ++ levelName .hard ++
    '/' :: (intChars m ++ levelName .medium ++
      '/' :: (intChars s ++ levelName .soft ++ [])))

/-- A two-level score string `"<h>hard/<s>soft"` (school timetabling uses
`HardSoftScore`, whose strings carry no `medium` part). -/
def scoreStr2 (h s : Int) : String :=
  String.mk (intChars h ++ levelName .hard ++
    '/' :: (intChars s ++ levelName .soft ++ []))

/-- `needle` occurs somewhere in `s` (substring occurrence). -/
def occursIn (needle s : String) : Prop :=
  needle.data <:+: s.data

instance (needle s : String) : Decidable (occursIn needle s) := by
  unfold occursIn
  infer_instance

/-! ### The enrichment and rendering steps of `analyze()` -/

/-- A row of `scoreAnalysis.constraints` after the `constraints.map` step of
`analyze()` set `e.type`, overwrote `e.weight` with the numeric component and
added `e.implicitScore`. -/
structure EnrichedConstraintAnalysis where
  name : String
  weight : Int
  score : String
  matchList : List String
  type : String
  implicitScore : Int
deriving DecidableEq

/-- The body of the `constraints.map` arrow function in `analyze()`:
`e.type` from the weight components (`hard` if nonzero, else `medium` if
nonzero, else `soft`), `e.weight = components[e.type]`, and `e.implicitScore`
from the score components in the same priority order. -/
def enrich (c : ConstraintAnalysis) : EnrichedConstraintAnalysis :=
  let comps := getScoreComponents c.weight
  let scores := getScoreComponents c.score
  { name := c.name
    score := c.score
    matchList := c.matchList
    type := if comps.hard ≠ 0 then "hard" else if comps.medium ≠ 0 then "medium" else "soft"
    weight := if comps.hard ≠ 0 then comps.hard else if comps.medium ≠ 0 then comps.medium else comps.soft
    implicitScore := if scores.hard ≠ 0 then scores.hard else if scores.medium ≠ 0 then scores.medium else scores.soft }

/-- `constraints.sort(comparator)` followed by the enriching `constraints.map`:
the processing `analyze()` applies to the response before rendering the table.
`Array.prototype.sort` is modelled by the stable `List.mergeSort` on the
comparator's "a not after b" relation. -/
def processScoreAnalysis (cs : List ConstraintAnalysis) : List EnrichedConstraintAnalysis :=
  (cs.mergeSort (fun a b => rowCmp a b ≤ 0)).map enrich

/-- The icon cell of a constraint row: the red warning triangle, the green
check circle, or nothing. -/
inductive RowIcon where
  | warning
  | check
  | empty
deriving DecidableEq

/-- Icon choice in the school-timetabling `analyze()`: warning when
`constraintAnalysis.type == "hard" && constraintAnalysis.implicitScore < 0`,
otherwise check when `constraintAnalysis.weight < 0 && matches.length == 0`. -/
def rowIconSchool (c : EnrichedConstraintAnalysis) : RowIcon :=
  if c.type = "hard" ∧ c.implicitScore < 0 then .warning
  else if c.weight < 0 ∧ c.matchList.length = 0 then .check
  else .empty

/-- Icon choice in the bed-allocation `analyze()`: same warning condition,
check simply when `matches.length == 0`. -/
def rowIconBed (c : EnrichedConstraintAnalysis) : RowIcon :=
  if c.type = "hard" ∧ c.implicitScore < 0 then .warning
  else if c.matchList.length = 0 then .check
  else .empty

/-! ### The school timetable data and `renderSchedule` -/

/-- A lesson of the school-timetabling payload. In the JSON, `timeslot` and
`room` are only IDs of these objects, and are `null` while unassigned. -/
structure Lesson where
  id : Nat
  subject : String
  teacher : String
  studentGroup : String
  timeslot : Option Nat
  room : Option Nat
deriving DecidableEq

/-- A loaded schedule: its (possibly absent) score string and its lessons. -/
structure Schedule where
  score : Option String
  lessons : List Lesson
deriving DecidableEq

/-- What the lesson loop of `renderSchedule` appends where: the unassigned
panel's cards and the cards cloned into the by-room, by-teacher and
by-student-group cells (cell key × lesson). -/
structure RenderOutcome where
  unassigned : List Lesson
  byRoomCells : List (Nat × Nat × Lesson)
  byTeacherCells : List (Nat × String × Lesson)
  byStudentGroupCells : List (Nat × String × Lesson)
deriving DecidableEq

/-- The `$.each(timetable.lessons, …)` loop of `renderSchedule`
(school timetabling): a lesson with a `null` timeslot or room goes to the
unassigned panel, otherwise clones go to the three per-view cells. -/
def renderLessons : List Lesson → RenderOutcome
  | [] => ⟨[], [], [], []⟩
  | l :: ls =>
    let r := renderLessons ls
    match l.timeslot, l.room with
    | some t, some rm =>
      ⟨r.unassigned,
        (t, rm, l) :: r.byRoomCells,
        (t, l.teacher, l) :: r.byTeacherCells,
        (t, l.studentGroup, l) :: r.byStudentGroupCells⟩
    | _, _ =>
      ⟨l :: r.unassigned, r.byRoomCells, r.byTeacherCells, r.byStudentGroupCells⟩

/-- The `All lessons have been assigned!` banner is appended exactly when the
unassigned panel has no children. -/
def bannerShown (lessons : List Lesson) : Bool :=
  (renderLessons lessons).unassigned.length == 0

/-! ### The `analyze()` entry and its effect on the loaded schedule -/

/-- What the body of `analyze()` places in the score-analysis modal. -/
inductive ModalText where
  | noScoreToAnalyzeYet
  | analysisTable
deriving DecidableEq

/-- Observable outcome of one `analyze()` invocation: whether the
`PUT …/analyze` request was issued, what the modal shows, the processed
constraint rows (when a response was received and processed), and the loaded
schedule afterwards. -/
structure AnalyzeOutcome where
  requestSent : Bool
  modal : ModalText
  processed : Option (List EnrichedConstraintAnalysis)
  scheduleAfter : Schedule
deriving DecidableEq

/-- `analyze()` from app.js: with a `null` score it only writes the
"No score to analyze yet, please first press the solve button." message; with a
score it issues the analyze request and sorts/enriches the response
(`response` stands for the `scoreAnalysis.constraints` the server returns).
The loaded schedule itself is only read (`JSON.stringify(loadedSchedule)`),
never written. -/
def analyzeRun (sched : Schedule) (response : List ConstraintAnalysis) : AnalyzeOutcome :=
  match sched.score with
  | none =>
    { requestSent := false
      modal := .noScoreToAnalyzeYet
      processed := none
      scheduleAfter := sched }
  | some _ =>
    { requestSent := true
      modal := .analysisTable
      processed := some (processScoreAnalysis response)
      scheduleAfter := sched }

/-! ### Solving buttons, auto-refresh interval and `renderSchedule`'s mode -/

/-- The page state touched by `refreshSolvingButtons`: the two buttons, the
set of live `setInterval` timers `(id, delay ms)` in creation order, the next
fresh timer id, and the global `autoRefreshIntervalId`. -/
structure UIState where
  solveShown : Bool
  stopShown : Bool
  activeIntervals : List (Nat × Nat)
  nextIntervalId : Nat
  autoRefreshIntervalId : Option Nat
deriving DecidableEq

/-- `refreshSolvingButtons(solving)` from app.js: when solving, hide solve,
show stop, and start a 2000 ms `refreshSchedule` interval only if none is
recorded; when not solving, show solve, hide stop, and clear and null any
recorded interval. -/
def refreshSolvingButtons (solving : Bool) (st : UIState) : UIState :=
  if solving then
    let st1 := { st with solveShown := false, stopShown := true }
    match st1.autoRefreshIntervalId with
    | none =>
      { st1 with
        activeIntervals := st1.activeIntervals ++ [(st1.nextIntervalId, 2000)]
        nextIntervalId := st1.nextIntervalId + 1
        autoRefreshIntervalId := some st1.nextIntervalId }
    | some _ => st1
  else
    let st1 := { st with solveShown := true, stopShown := false }
    match st1.autoRefreshIntervalId with
    | some i =>
      { st1 with
        activeIntervals := st1.activeIntervals.filter (fun p => p.1 ≠ i)
        autoRefreshIntervalId := none }
    | none => st1

/-- The solving flag computed at the top of `renderSchedule`:
`solverStatus != null && solverStatus !== "NOT_SOLVING"`. -/
def solvingFlag : Option String → Bool
  | none => false
  | some st => st ≠ "NOT_SOLVING"

/-- The button/interval effect of `renderSchedule(timetable)`. -/
def renderScheduleButtons (solverStatus : Option String) (st : UIState) : UIState :=
  refreshSolvingButtons (solvingFlag solverStatus) st

/-- The page state before any `refreshSolvingButtons` call:
`var autoRefreshIntervalId = null`, no timers. -/
def initUIState : UIState :=
  { solveShown := true
    stopShown := false
    activeIntervals := []
    nextIntervalId := 0
    autoRefreshIntervalId := none }

/-- A sequence of `refreshSolvingButtons` calls from the initial page state. -/
def runCalls (calls : List Bool) : UIState :=
  calls.foldl (fun st b => refreshSolvingButtons b st) initUIState

/-- Consistency of the page state: the recorded `autoRefreshIntervalId` is
`null` with no live timer, or names the single live 2000 ms timer. -/
def uiInv (st : UIState) : Prop :=
  (st.autoRefreshIntervalId = none ∧ st.activeIntervals = []) ∨
    (∃ i, st.autoRefreshIntervalId = some i ∧ st.activeIntervals = [(i, 2000)])

/-! ### The color picker -/

/-- `BG_COLORS` from the school-timetabling app.js. -/
def BG_COLORS : List String :=
  ["#009E73", "#0072B2", "#D55E00", "#000000", "#CC79A7", "#E69F00", "#F0E442",
   "#F6768E", "#C10020", "#A6BDD7", "#803E75", "#007D34", "#56B4E9", "#999999",
   "#8DD3C7", "#FFD92F", "#B3DE69", "#FB8072", "#80B1D3", "#B15928", "#CAB2D6",
   "#1B9E77", "#E7298A", "#6A3D9A"]

/-- `FG_COLORS` from the school-timetabling app.js. -/
def FG_COLORS : List String :=
  ["#FFFFFF", "#FFFFFF", "#FFFFFF", "#FFFFFF", "#FFFFFF", "#000000", "#000000",
   "#FFFFFF", "#FFFFFF", "#000000", "#FFFFFF", "#FFFFFF", "#FFFFFF", "#000000",
   "#000000", "#000000", "#000000", "#FFFFFF", "#000000", "#FFFFFF", "#000000",
   "#FFFFFF", "#FFFFFF", "#FFFFFF"]

/-- The `{bg: …, fg: …}` record `pickColor` returns; a field is `none` when the
palette index fell outside the array (JavaScript `undefined`). -/
structure ColorPair where
  bg : Option String
  fg : Option String
deriving DecidableEq

/-- The mutable globals of the color picker: the insertion-ordered `COLOR_MAP`
and `nextColorIndex`. -/
structure ColorState where
  colorMap : List (String × ColorPair)
  nextColorIndex : Nat
deriving DecidableEq

/-- `pickColor(object)` from the school-timetabling app.js: return the
memoized color if present, otherwise take the next palette index (even past
the end of the palettes), record it and return it. -/
def pickColor (key : String) (st : ColorState) : ColorPair × ColorState :=
  match List.lookup key st.colorMap with
  | some color => (color, st)
  | none =>
    let index := st.nextColorIndex
    let color : ColorPair := ⟨BG_COLORS[index]?, FG_COLORS[index]?⟩
    (color, ⟨st.colorMap ++ [(key, color)], index + 1⟩)

/-- The empty `COLOR_MAP` with `nextColorIndex = 0` (school timetabling's
initial state). -/
def initColorState : ColorState := ⟨[], 0⟩

/-- Run `pickColor` over a sequence of keys from a given state, keeping only
the state. -/
def runPickFrom (keys : List String) (st : ColorState) : ColorState :=
  keys.foldl (fun s k => (pickColor k s).2) st

/-- Run `pickColor` over a sequence of keys from the initial state. -/
def runPick (keys : List String) : ColorState :=
  runPickFrom keys initColorState

/-! ### Pre-solve pinning validation

Modelled from the spec: the solver engine itself is not part of this
repository (the repository documents the external Timefold engine), so the
rejection of `a pinned Entity with an unassigned Variable that disallows
unassignment` before solving starts is embedded from the spec's words and the
documented pinning rule in the continuous-planning reference. -/

/-- Modelled from the spec: a planning entity as the validation sees it — its
id, pin flag, whether its configuration allows unassigned variables, and its
variable values (`none` = unassigned; `planningVariables` models the spec's
Variables, `variables` being a Lean keyword). -/
structure PlanEntity where
  id : Nat
  pinned : Bool
  allowsUnassigned : Bool
  planningVariables : List (Option Nat)
deriving DecidableEq

/-- The fatal configuration errors surfaced before solving. -/
inductive ConfigurationError where
  | pinnedEntityWithDisallowedNull (entityId : Nat)
deriving DecidableEq

/-- Modelled from the spec: does this entity violate the pinning invariant
(pinned, some variable unassigned, unassignment disallowed)? -/
def entityIllegallyPinnedNull (e : PlanEntity) : Bool :=
  e.pinned && !e.allowsUnassigned && e.planningVariables.any (fun v => v.isNone)

/-- Modelled from the spec: the pre-solve configuration validation, rejecting
the first entity in an illegal pinned state. -/
def validateBeforeSolve (es : List PlanEntity) : Except ConfigurationError Unit :=
  match es.find? entityIllegallyPinnedNull with
  | some e => .error (.pinnedEntityWithDisallowedNull e.id)
  | none => .ok ()

/-- Modelled from the spec: submitting a problem either gets rejected by the
validation or starts solving. -/
inductive SolveOutcome where
  | rejected (err : ConfigurationError)
  | started (initial : List PlanEntity)
deriving DecidableEq

/-- Modelled from the spec: `solve(id, solution)` runs the configuration
validation before any search begins. -/
def submitSolve (es : List PlanEntity) : SolveOutcome :=
  match validateBeforeSolve es with
  | .error e => .rejected e
  | .ok _ => .started es

/-- Did solving begin for this submission? -/
def solvingStarted : SolveOutcome → Bool
  | .rejected _ => false
  | .started _ => true

/-! ## Theorems -/

/-- C1, counterexample: the `analyze()` sort comparator does not implement the
spec's lexicographic Score order. With `a.score` parsing to components
`(-1, 0, -5)` and `b.score` to `(-5, 0, 0)`, the comparator puts `a` strictly first
(it ignores the hard components because neither sign-split guard fires and
`|a.hard| > |b.hard|` fails, then decides at the soft level), while in the
lexicographic order `b` precedes `a` at the hard level. -/
theorem analyze_comparator_not_lexicographic_cex :
    ¬ (rowCmp ⟨"Room conflict", "-1hard", "-1hard/0medium/-5soft", []⟩
        ⟨"Teacher conflict", "-1hard", "-5hard/0medium/0soft", []⟩ < 0 ↔
      specLexLt (getScoreComponents "-1hard/0medium/-5soft")
        (getScoreComponents "-5hard/0medium/0soft")) := by
  decide

/-- C1, amended: the comparator orders `a` strictly before `b` whenever `a`'s
hard component is negative and `b`'s is positive; and whenever the hard
components are equal, the medium components are equal and the mistaken guard
comparing `a`'s hard sign with `b`'s soft component does not fire, it orders
`a` strictly before `b` iff `a` precedes `b` at the soft level of the spec
order. In general it does not implement the lexicographic order: when neither
hard guard fires it falls through to the lower levels, so medium and soft
components can decide even though the hard components differ. -/
theorem analyze_comparator_order (a b : ConstraintAnalysis)
    (ca cb : ScoreComponents)
    (ha : getScoreComponents a.score = ca) (hb : getScoreComponents b.score = cb) :
    (ca.hard < 0 → 0 < cb.hard → rowCmp a b < 0) ∧
    (ca.hard = cb.hard → ca.medium = cb.medium → ¬(0 < ca.hard ∧ cb.soft < 0) →
      (rowCmp a b < 0 ↔ specLexLt ca cb)) := by
  unfold rowCmp
  rw [ha, hb]
  constructor
  · intro h1 h2
    simp only [cmpConstraints]
    rw [if_pos ⟨h1, h2⟩]
    decide
  · intro hh hm hg
    simp only [cmpConstraints, specLexLt, specLevelLt]
    split_ifs <;> omega

/-- C1, witness for the amended theorem at concrete rows. -/
theorem analyze_comparator_order_witness :
    rowCmp ⟨"A", "-1hard", "-3hard/0medium/0soft", []⟩
      ⟨"B", "-1hard", "2hard/0medium/0soft", []⟩ < 0 ∧
    (rowCmp ⟨"A", "-1hard", "0hard/0medium/-4soft", []⟩
        ⟨"B", "-1hard", "0hard/0medium/-2soft", []⟩ < 0 ↔
      specLexLt ⟨0, 0, -4⟩ ⟨0, 0, -2⟩) := by
  constructor
  · exact (analyze_comparator_order _ _ ⟨-3, 0, 0⟩ ⟨2, 0, 0⟩ (by decide) (by decide)).1
      (by decide) (by decide)
  · exact (analyze_comparator_order _ _ ⟨0, 0, -4⟩ ⟨0, 0, -2⟩ (by decide) (by decide)).2
      (by decide) (by decide) (by decide)

/-- C2, counterexample: with a `null` score, `analyze()` does not perform the
re-evaluation — it issues no request, processes nothing and only shows the
"no score to analyze yet" message. -/
theorem analyze_null_score_skips_request_cex :
    (analyzeRun ⟨none, []⟩ []).requestSent = false ∧
    (analyzeRun ⟨none, []⟩ []).processed = none ∧
    (analyzeRun ⟨none, []⟩ []).modal = .noScoreToAnalyzeYet := by
  decide

/-- C2, amended: `analyze()` issues the from-scratch re-evaluation request and
produces the per-constraint breakdown iff the loaded schedule's score is
non-null; with a `null` score it only shows the "no score to analyze yet"
message. -/
theorem analyze_requires_score (sched : Schedule) (response : List ConstraintAnalysis) :
    (sched.score = none →
      (analyzeRun sched response).requestSent = false ∧
      (analyzeRun sched response).processed = none ∧
      (analyzeRun sched response).modal = .noScoreToAnalyzeYet) ∧
    (∀ sc, sched.score = some sc →
      (analyzeRun sched response).requestSent = true ∧
      (analyzeRun sched response).processed = some (processScoreAnalysis response) ∧
      (analyzeRun sched response).modal = .analysisTable) := by
  obtain ⟨sco, les⟩ := sched
  constructor
  · intro h
    simp only at h
    subst h
    simp [analyzeRun]
  · intro sc h
    simp only at h
    subst h
    simp [analyzeRun]

/-- C2, witness for the amended theorem at a concrete schedule. -/
theorem analyze_requires_score_witness :
    (analyzeRun ⟨none, []⟩ []).requestSent = false ∧
    (analyzeRun ⟨some "0hard/0soft", []⟩ []).requestSent = true := by
  refine ⟨((analyze_requires_score ⟨none, []⟩ []).1 rfl).1, ?_⟩
  exact ((analyze_requires_score ⟨some "0hard/0soft", []⟩ []).2 "0hard/0soft" rfl).1

/-- C3 (spec-modelled): a problem containing a pinned entity with an
unassigned variable whose configuration disallows unassignment is rejected by
the pre-solve validation with a configuration error, and solving never
starts on it. -/
theorem pinned_null_rejected_before_solving (es : List PlanEntity) (e : PlanEntity)
    (hmem : e ∈ es) (hpin : e.pinned = true) (hdis : e.allowsUnassigned = false)
    (hnull : ∃ v ∈ e.planningVariables, v = none) :
    (∃ err, validateBeforeSolve es = .error err) ∧
    solvingStarted (submitSolve es) = false := by
  have hp : entityIllegallyPinnedNull e = true := by
    obtain ⟨v, hv, hveq⟩ := hnull
    simp only [entityIllegallyPinnedNull, hpin, hdis, Bool.not_false, Bool.true_and,
      List.any_eq_true]
    exact ⟨v, hv, by simp [hveq]⟩
  have hsome : (es.find? entityIllegallyPinnedNull).isSome :=
    List.find?_isSome.mpr ⟨e, hmem, hp⟩
  obtain ⟨e0, he0⟩ := Option.isSome_iff_exists.mp hsome
  refine ⟨⟨.pinnedEntityWithDisallowedNull e0.id, ?_⟩, ?_⟩
  · simp [validateBeforeSolve, he0]
  · simp [submitSolve, validateBeforeSolve, he0, solvingStarted]

/-- C3, witness at a concrete one-entity problem. -/
theorem pinned_null_rejected_before_solving_witness :
    (∃ err, validateBeforeSolve [⟨7, true, false, [none]⟩] = .error err) ∧
    solvingStarted (submitSolve [⟨7, true, false, [none]⟩]) = false := by
  exact pinned_null_rejected_before_solving _ ⟨7, true, false, [none]⟩
    (by decide) (by decide) (by decide) (by decide)

/-- C4 (confirmed): in both apps, a rendered constraint row carries the red
warning icon iff its derived type is `hard` and its implicit score is
negative; rows whose derived type is `medium` or `soft` never carry it. -/
theorem warning_icon_iff_hard_negative (c : ConstraintAnalysis) :
    (rowIconSchool (enrich c) = .warning ↔
      ((enrich c).type = "hard" ∧ (enrich c).implicitScore < 0)) ∧
    (rowIconBed (enrich c) = .warning ↔
      ((enrich c).type = "hard" ∧ (enrich c).implicitScore < 0)) ∧
    ((enrich c).type = "medium" ∨ (enrich c).type = "soft" →
      rowIconSchool (enrich c) ≠ .warning ∧ rowIconBed (enrich c) ≠ .warning) := by
  have hs : ∀ e : EnrichedConstraintAnalysis,
      rowIconSchool e = .warning ↔ (e.type = "hard" ∧ e.implicitScore < 0) := by
    intro e
    unfold rowIconSchool
    split_ifs with h1 h2 <;> simp_all
  have hb : ∀ e : EnrichedConstraintAnalysis,
      rowIconBed e = .warning ↔ (e.type = "hard" ∧ e.implicitScore < 0) := by
    intro e
    unfold rowIconBed
    split_ifs with h1 h2 <;> simp_all
  refine ⟨hs _, hb _, ?_⟩
  intro h
  constructor
  · simp only [ne_eq, hs]
    rintro ⟨hh, _⟩
    rcases h with h | h <;> rw [h] at hh <;> simp at hh
  · simp only [ne_eq, hb]
    rintro ⟨hh, _⟩
    rcases h with h | h <;> rw [h] at hh <;> simp at hh

/-- C4, witness: a hard constraint with a negative implicit score gets the
warning icon; a soft row does not. -/
theorem warning_icon_iff_hard_negative_witness :
    rowIconSchool (enrich ⟨"Room conflict", "-1hard", "-2hard", []⟩) = .warning ∧
    rowIconSchool (enrich ⟨"Comfort", "7soft", "14soft", []⟩) ≠ .warning := by
  constructor
  · exact (warning_icon_iff_hard_negative ⟨"Room conflict", "-1hard", "-2hard", []⟩).1.mpr
      (by decide)
  · exact ((warning_icon_iff_hard_negative ⟨"Comfort", "7soft", "14soft", []⟩).2.2
      (Or.inr (by decide))).1

/-! ### Lemmas about the score-string scan (used for C5) -/

theorem stripExact_eq_append :
    ∀ (p cs r : List Char), stripExact p cs = some r → cs = p ++ r := by
  intro p
  induction p with
  | nil =>
    intro cs r h
    simp only [stripExact, Option.some.injEq] at h
    simp [h]
  | cons a ps ih =>
    intro cs r h
    cases cs with
    | nil => simp [stripExact] at h
    | cons c cs =>
      simp only [stripExact] at h
      by_cases hac : a = c
      · rw [if_pos hac] at h
        subst hac
        simp [ih cs r h]
      · rw [if_neg hac] at h
        cases h

theorem tryLevel_eq_append (cs : List Char) (lvl : ScoreLevel) (rest : List Char)
    (h : tryLevel cs = some (lvl, rest)) : cs = levelName lvl ++ rest := by
  unfold tryLevel at h
  cases h1 : stripExact (levelName .hard) cs with
  | some r =>
    rw [h1] at h
    simp only [Option.some.injEq, Prod.mk.injEq] at h
    obtain ⟨hl, hr⟩ := h
    subst hl
    subst hr
    exact stripExact_eq_append _ _ _ h1
  | none =>
    rw [h1] at h
    cases h2 : stripExact (levelName .medium) cs with
    | some r =>
      rw [h2] at h
      simp only [Option.some.injEq, Prod.mk.injEq] at h
      obtain ⟨hl, hr⟩ := h
      subst hl
      subst hr
      exact stripExact_eq_append _ _ _ h2
    | none =>
      rw [h2] at h
      cases h3 : stripExact (levelName .soft) cs with
      | some r =>
        rw [h3] at h
        simp only [Option.some.injEq, Prod.mk.injEq] at h
        obtain ⟨hl, hr⟩ := h
        subst hl
        subst hr
        exact stripExact_eq_append _ _ _ h3
      | none =>
        rw [h3] at h
        cases h

theorem tryAfterSign_some (neg : Bool) (cs : List Char) (v : Int) (lvl : ScoreLevel)
    (rest : List Char) (h : tryAfterSign neg cs = some ((v, lvl), rest)) :
    ∃ ds, ds ≠ [] ∧ cs = ds ++ levelName lvl ++ rest ∧
      v = if neg then -(parseNatDigits ds : Int) else (parseNatDigits ds : Int) := by
  unfold tryAfterSign at h
  by_cases hds : ((cs.takeWhile (fun c => c.isDigit)).isEmpty : Bool)
  · rw [if_pos hds] at h
    cases h
  · rw [if_neg hds] at h
    cases h2 : tryLevel (cs.dropWhile (fun c => c.isDigit)) with
    | none =>
      rw [h2] at h
      cases h
    | some p =>
      obtain ⟨lvl2, rest2⟩ := p
      rw [h2] at h
      simp only [Option.some.injEq, Prod.mk.injEq] at h
      obtain ⟨⟨hv, hlvl⟩, hrest⟩ := h
      refine ⟨cs.takeWhile (fun c => c.isDigit), ?_, ?_, ?_⟩
      · intro hnil
        rw [hnil] at hds
        exact hds rfl
      · rw [List.append_assoc]
        subst hlvl
        subst hrest
        rw [← tryLevel_eq_append _ _ _ h2]
        exact (List.takeWhile_append_dropWhile (fun c => c.isDigit) cs).symm
      · exact hv.symm

theorem tryMatch_nil : tryMatch [] = none := rfl

theorem tryMatch_dash (r : List Char) : tryMatch ('-' :: r) = tryAfterSign true r := rfl

theorem tryMatch_cons_of_ne (c : Char) (cs : List Char) (h : c ≠ '-') :
    tryMatch (c :: cs) = tryAfterSign false (c :: cs) := by
  rw [tryMatch.eq_def]
  split
  · next r heq =>
    injection heq with h1 h2
    exact absurd h1 h
  · rfl

theorem tryMatch_some (cs : List Char) (v : Int) (lvl : ScoreLevel) (rest : List Char)
    (h : tryMatch cs = some ((v, lvl), rest)) :
    ∃ pre, pre ≠ [] ∧ cs = pre ++ levelName lvl ++ rest := by
  cases cs with
  | nil =>
    rw [tryMatch_nil] at h
    cases h
  | cons c cs =>
    by_cases hc : c = '-'
    · subst hc
      rw [tryMatch_dash] at h
      obtain ⟨ds, hne, hcs, hv⟩ := tryAfterSign_some _ _ _ _ _ h
      exact ⟨'-' :: ds, by simp, by simp [hcs]⟩
    · rw [tryMatch_cons_of_ne c cs hc] at h
      obtain ⟨ds, hne, hcs, hv⟩ := tryAfterSign_some _ _ _ _ _ h
      exact ⟨ds, hne, hcs⟩

theorem levelName_length_pos (lvl : ScoreLevel) : 0 < (levelName lvl).length := by
  cases lvl <;> simp [levelName]

theorem tryMatch_rest_length (cs : List Char) (m : Int × ScoreLevel) (rest : List Char)
    (h : tryMatch cs = some (m, rest)) : rest.length < cs.length := by
  obtain ⟨v, lvl⟩ := m
  obtain ⟨pre, hne, hcs⟩ := tryMatch_some cs v lvl rest h
  subst hcs
  have h1 : 0 < pre.length := List.length_pos.mpr hne
  have h2 : 0 < (levelName lvl).length := levelName_length_pos lvl
  simp only [List.length_append]
  omega

theorem tryMatch_rest_suffix (cs : List Char) (m : Int × ScoreLevel) (rest : List Char)
    (h : tryMatch cs = some (m, rest)) : rest <:+ cs := by
  obtain ⟨v, lvl⟩ := m
  obtain ⟨pre, hne, hcs⟩ := tryMatch_some cs v lvl rest h
  exact ⟨pre ++ levelName lvl, by rw [hcs, List.append_assoc]⟩

theorem scanAux_congr (fuel : Nat) :
    ∀ (fuel2 : Nat) (cs : List Char), cs.length ≤ fuel → cs.length ≤ fuel2 →
      scanAux fuel cs = scanAux fuel2 cs := by
  induction fuel with
  | zero =>
    intro fuel2 cs h h2
    have hnil : cs = [] := List.length_eq_zero.mp (Nat.le_zero.mp h)
    subst hnil
    cases fuel2 <;> simp [scanAux]
  | succ fuel ih =>
    intro fuel2 cs h h2
    cases cs with
    | nil => cases fuel2 <;> simp [scanAux]
    | cons c cs =>
      cases fuel2 with
      | zero => simp at h2
      | succ fuel2 =>
        simp only [scanAux]
        cases hm : tryMatch (c :: cs) with
        | some p =>
          obtain ⟨m, rest⟩ := p
          have hlt := tryMatch_rest_length _ _ _ hm
          simp only [List.length_cons] at h h2 hlt
          dsimp only
          rw [ih fuel2 rest (by omega) (by omega)]
        | none =>
          simp only [List.length_cons] at h h2
          dsimp only
          exact ih fuel2 cs (by omega) (by omega)

theorem scoreMatches_of_tryMatch (cs : List Char) (m : Int × ScoreLevel)
    (rest : List Char) (h : tryMatch cs = some (m, rest)) :
    scoreMatches cs = m :: scoreMatches rest := by
  cases cs with
  | nil =>
    rw [tryMatch_nil] at h
    cases h
  | cons c cs =>
    have hlt := tryMatch_rest_length _ _ _ h
    simp only [List.length_cons] at hlt
    unfold scoreMatches
    simp only [List.length_cons, scanAux, h]
    congr 1
    exact scanAux_congr cs.length rest.length rest (by omega) le_rfl

theorem scoreMatches_skip (c : Char) (cs : List Char) (h1 : c ≠ '-')
    (h2 : c.isDigit = false) : scoreMatches (c :: cs) = scoreMatches cs := by
  have hm : tryMatch (c :: cs) = none := by
    rw [tryMatch_cons_of_ne c cs h1]
    unfold tryAfterSign
    rw [if_pos]
    rw [List.takeWhile_cons_of_neg]
    · rfl
    · simp [h2]
  unfold scoreMatches
  simp only [List.length_cons, scanAux, hm]

theorem natDigitChar_isDigit (d : Nat) (h : d < 10) : (natDigitChar d).isDigit = true := by
  interval_cases d <;> decide

theorem digitVal_natDigitChar (d : Nat) (h : d < 10) : digitVal (natDigitChar d) = d := by
  interval_cases d <;> decide

theorem natChars_digits (n : Nat) : ∀ c ∈ natChars n, c.isDigit = true := by
  intro c hc
  unfold natChars at hc
  by_cases h0 : n = 0
  · rw [if_pos h0] at hc
    simp only [List.mem_singleton] at hc
    subst hc
    decide
  · rw [if_neg h0] at hc
    simp only [List.mem_map, List.mem_reverse] at hc
    obtain ⟨d, hd, rfl⟩ := hc
    exact natDigitChar_isDigit d (Nat.digits_lt_base (by norm_num) hd)

theorem natChars_ne_nil (n : Nat) : natChars n ≠ [] := by
  unfold natChars
  by_cases h0 : n = 0
  · simp [h0]
  · rw [if_neg h0]
    simp [Nat.digits_ne_nil_iff_ne_zero.mpr h0]

theorem foldl_digits (L : List Nat) :
    ∀ a0 : Nat, (∀ d ∈ L, d < 10) →
      ((L.reverse.map natDigitChar).foldl (fun a c => a * 10 + digitVal c) a0) =
        a0 * 10 ^ L.length + Nat.ofDigits 10 L := by
  induction L with
  | nil =>
    intro a0 h
    simp [Nat.ofDigits_nil]
  | cons d L ih =>
    intro a0 h
    simp only [List.reverse_cons, List.map_append, List.foldl_append, List.map_cons,
      List.map_nil, List.foldl_cons, List.foldl_nil]
    rw [ih a0 (fun x hx => h x (List.mem_cons_of_mem _ hx))]
    rw [digitVal_natDigitChar d (h d (List.mem_cons_self _ _))]
    rw [Nat.ofDigits_cons]
    simp only [List.length_cons]
    ring

theorem parseNatDigits_natChars (n : Nat) : parseNatDigits (natChars n) = n := by
  by_cases h0 : n = 0
  · subst h0
    decide
  · unfold natChars parseNatDigits
    rw [if_neg h0]
    rw [foldl_digits _ 0 (fun d hd => Nat.digits_lt_base (by norm_num) hd)]
    simp [Nat.ofDigits_digits]

theorem takeWhile_digit_levelName (lvl : ScoreLevel) (rest : List Char) :
    (levelName lvl ++ rest).takeWhile (fun c => c.isDigit) = [] ∧
    (levelName lvl ++ rest).dropWhile (fun c => c.isDigit) = levelName lvl ++ rest := by
  cases lvl <;>
    refine ⟨?_, ?_⟩ <;>
      simp only [levelName, List.cons_append] <;>
        first
          | exact List.takeWhile_cons_of_neg (by decide)
          | exact List.dropWhile_cons_of_neg (by decide)

theorem tryLevel_levelName (lvl : ScoreLevel) (rest : List Char) :
    tryLevel (levelName lvl ++ rest) = some (lvl, rest) := by
  cases lvl <;> simp [tryLevel, levelName, stripExact]

theorem tryAfterSign_token (neg : Bool) (n : Nat) (lvl : ScoreLevel) (rest : List Char) :
    tryAfterSign neg (natChars n ++ (levelName lvl ++ rest)) =
      some ((if neg then -(n : Int) else (n : Int), lvl), rest) := by
  unfold tryAfterSign
  rw [List.takeWhile_append_of_pos (by intro a ha; exact natChars_digits n a ha)]
  rw [List.dropWhile_append_of_pos (by intro a ha; exact natChars_digits n a ha)]
  rw [(takeWhile_digit_levelName lvl rest).1, (takeWhile_digit_levelName lvl rest).2]
  rw [List.append_nil]
  rw [if_neg (by simp [natChars_ne_nil n])]
  rw [tryLevel_levelName]
  rw [parseNatDigits_natChars]
  rfl

theorem tryMatch_intChars (v : Int) (lvl : ScoreLevel) (rest : List Char) :
    tryMatch (intChars v ++ (levelName lvl ++ rest)) = some ((v, lvl), rest) := by
  unfold intChars
  by_cases hv : v < 0
  · rw [if_pos hv]
    rw [List.cons_append, tryMatch_dash, tryAfterSign_token]
    have hval : -((v.natAbs : Int)) = v := by omega
    show some ((-((v.natAbs : Int)), lvl), rest) = some ((v, lvl), rest)
    rw [hval]
  · rw [if_neg hv]
    obtain ⟨c, cs, hcs⟩ := List.exists_cons_of_ne_nil (natChars_ne_nil v.natAbs)
    have hcdig : c.isDigit = true :=
      natChars_digits v.natAbs c (by rw [hcs]; exact List.mem_cons_self _ _)
    have hcne : c ≠ '-' := by
      intro hh
      rw [hh] at hcdig
      exact absurd hcdig (by decide)
    rw [hcs, List.cons_append, tryMatch_cons_of_ne c _ hcne, ← List.cons_append, ← hcs,
      tryAfterSign_token]
    have hval : ((v.natAbs : Int)) = v := by omega
    show some ((((v.natAbs : Int)), lvl), rest) = some ((v, lvl), rest)
    rw [hval]

theorem scoreMatches_scoreStr3 (h m s : Int) :
    scoreMatches (scoreStr3 h m s).data =
      [(h, ScoreLevel.hard), (m, ScoreLevel.medium), (s, ScoreLevel.soft)] := by
  show scoreMatches (intChars h ++ levelName .hard ++
    '/' :: (intChars m ++ levelName .medium ++
      '/' :: (intChars s ++ levelName .soft ++ []))) = _
  rw [List.append_assoc]
  rw [scoreMatches_of_tryMatch _ _ _ (tryMatch_intChars h .hard _)]
  rw [scoreMatches_skip _ _ (by decide) (by decide)]
  rw [List.append_assoc]
  rw [scoreMatches_of_tryMatch _ _ _ (tryMatch_intChars m .medium _)]
  rw [scoreMatches_skip _ _ (by decide) (by decide)]
  rw [List.append_assoc]
  rw [scoreMatches_of_tryMatch _ _ _ (tryMatch_intChars s .soft _)]
  rfl

theorem scoreMatches_scoreStr2 (h s : Int) :
    scoreMatches (scoreStr2 h s).data = [(h, ScoreLevel.hard), (s, ScoreLevel.soft)] := by
  show scoreMatches (intChars h ++ levelName .hard ++
    '/' :: (intChars s ++ levelName .soft ++ [])) = _
  rw [List.append_assoc]
  rw [scoreMatches_of_tryMatch _ _ _ (tryMatch_intChars h .hard _)]
  rw [scoreMatches_skip _ _ (by decide) (by decide)]
  rw [List.append_assoc]
  rw [scoreMatches_of_tryMatch _ _ _ (tryMatch_intChars s .soft _)]
  rfl

theorem mem_scanAux_infix (fuel : Nat) :
    ∀ (cs : List Char) (v : Int) (lvl : ScoreLevel),
      (v, lvl) ∈ scanAux fuel cs → levelName lvl <:+: cs := by
  induction fuel with
  | zero =>
    intro cs v lvl h
    simp [scanAux] at h
  | succ fuel ih =>
    intro cs v lvl h
    cases cs with
    | nil => simp [scanAux] at h
    | cons c cs =>
      simp only [scanAux] at h
      cases hm : tryMatch (c :: cs) with
      | some p =>
        obtain ⟨⟨mv, mlvl⟩, rest⟩ := p
        simp only [hm, List.mem_cons] at h
        obtain ⟨pre, hne, hcs⟩ := tryMatch_some _ _ _ _ hm
        rcases h with h | h
        · obtain ⟨hv, hlvl⟩ := Prod.mk.injEq .. ▸ h
          subst hlvl
          exact ⟨pre, rest, hcs.symm⟩
        · refine (ih rest v lvl h).trans ?_
          exact List.IsSuffix.isInfix ⟨pre ++ levelName mlvl, by rw [hcs, List.append_assoc]⟩
      | none =>
        simp only [hm] at h
        exact List.infix_cons (ih cs v lvl h)

theorem foldl_applyMatch_hard (ms : List (Int × ScoreLevel)) :
    ∀ acc : ScoreComponents, (∀ v : Int, (v, ScoreLevel.hard) ∉ ms) →
      (ms.foldl applyMatch acc).hard = acc.hard := by
  induction ms with
  | nil =>
    intro acc h
    rfl
  | cons m ms ih =>
    intro acc h
    rw [List.foldl_cons]
    rw [ih _ (fun v hv => h v (List.mem_cons_of_mem _ hv))]
    obtain ⟨mv, mlvl⟩ := m
    cases mlvl with
    | hard => exact absurd (List.mem_cons_self _ _) (h mv)
    | medium => rfl
    | soft => rfl

theorem foldl_applyMatch_medium (ms : List (Int × ScoreLevel)) :
    ∀ acc : ScoreComponents, (∀ v : Int, (v, ScoreLevel.medium) ∉ ms) →
      (ms.foldl applyMatch acc).medium = acc.medium := by
  induction ms with
  | nil =>
    intro acc h
    rfl
  | cons m ms ih =>
    intro acc h
    rw [List.foldl_cons]
    rw [ih _ (fun v hv => h v (List.mem_cons_of_mem _ hv))]
    obtain ⟨mv, mlvl⟩ := m
    cases mlvl with
    | medium => exact absurd (List.mem_cons_self _ _) (h mv)
    | hard => rfl
    | soft => rfl

theorem foldl_applyMatch_soft (ms : List (Int × ScoreLevel)) :
    ∀ acc : ScoreComponents, (∀ v : Int, (v, ScoreLevel.soft) ∉ ms) →
      (ms.foldl applyMatch acc).soft = acc.soft := by
  induction ms with
  | nil =>
    intro acc h
    rfl
  | cons m ms ih =>
    intro acc h
    rw [List.foldl_cons]
    rw [ih _ (fun v hv => h v (List.mem_cons_of_mem _ hv))]
    obtain ⟨mv, mlvl⟩ := m
    cases mlvl with
    | soft => exact absurd (List.mem_cons_self _ _) (h mv)
    | hard => rfl
    | medium => rfl

theorem levelName_data :
    levelName ScoreLevel.hard = "hard".data ∧
    levelName ScoreLevel.medium = "medium".data ∧
    levelName ScoreLevel.soft = "soft".data := by
  refine ⟨?_, ?_, ?_⟩ <;> decide

/-- C5 (confirmed): `getScoreComponents` returns integer components. On every
canonical score string — the signed base-10 integer value of each level
immediately preceding the level name, for the three-level and the two-level
formats — each field is exactly that integer, and every level whose name does
not occur in the string at all gets component `0`. All arithmetic in the
embedding is over `Int`; no floating point is involved. -/
theorem getScoreComponents_components :
    (∀ h m s : Int, getScoreComponents (scoreStr3 h m s) = ⟨h, m, s⟩) ∧
    (∀ h s : Int, getScoreComponents (scoreStr2 h s) = ⟨h, 0, s⟩) ∧
    (∀ str : String,
      (¬ occursIn "hard" str → (getScoreComponents str).hard = 0) ∧
      (¬ occursIn "medium" str → (getScoreComponents str).medium = 0) ∧
      (¬ occursIn "soft" str → (getScoreComponents str).soft = 0)) := by
  refine ⟨?_, ?_, ?_⟩
  · intro h m s
    unfold getScoreComponents
    rw [scoreMatches_scoreStr3]
    rfl
  · intro h s
    unfold getScoreComponents
    rw [scoreMatches_scoreStr2]
    rfl
  · intro str
    refine ⟨?_, ?_, ?_⟩
    · intro hno
      unfold getScoreComponents applyMatches
      apply foldl_applyMatch_hard
      intro v hv
      apply hno
      unfold occursIn
      rw [← levelName_data.1]
      exact mem_scanAux_infix _ _ _ _ hv
    · intro hno
      unfold getScoreComponents applyMatches
      apply foldl_applyMatch_medium
      intro v hv
      apply hno
      unfold occursIn
      rw [← levelName_data.2.1]
      exact mem_scanAux_infix _ _ _ _ hv
    · intro hno
      unfold getScoreComponents applyMatches
      apply foldl_applyMatch_soft
      intro v hv
      apply hno
      unfold occursIn
      rw [← levelName_data.2.2]
      exact mem_scanAux_infix _ _ _ _ hv

/-- C5, witness at concrete inputs. -/
theorem getScoreComponents_components_witness :
    getScoreComponents (scoreStr3 (-3) 0 (-7)) = ⟨-3, 0, -7⟩ ∧
    getScoreComponents (scoreStr2 0 9) = ⟨0, 0, 9⟩ ∧
    (getScoreComponents "feasible").hard = 0 := by
  refine ⟨getScoreComponents_components.1 (-3) 0 (-7),
    getScoreComponents_components.2.1 0 9, ?_⟩
  exact (getScoreComponents_components.2.2 "feasible").1 (by decide)

/-- C7 (confirmed): `analyze()` never mutates the loaded schedule — its score
and its lessons (the entities' variable assignments) are the same after the
call — and the processed output it renders is, up to the sort order, exactly
the response rows with the `type`, numeric `weight` and `implicitScore` fields
added (a permutation of the enriched response). -/
theorem analyze_preserves_schedule (sched : Schedule) (response : List ConstraintAnalysis) :
    (analyzeRun sched response).scheduleAfter = sched ∧
    (analyzeRun sched response).scheduleAfter.score = sched.score ∧
    (analyzeRun sched response).scheduleAfter.lessons = sched.lessons ∧
    (∀ out, (analyzeRun sched response).processed = some out →
      out.Perm (response.map enrich)) := by
  obtain ⟨sco, les⟩ := sched
  cases sco with
  | none =>
    refine ⟨rfl, rfl, rfl, ?_⟩
    intro out hout
    simp [analyzeRun] at hout
  | some sc =>
    refine ⟨rfl, rfl, rfl, ?_⟩
    intro out hout
    simp only [analyzeRun, Option.some.injEq] at hout
    subst hout
    unfold processScoreAnalysis
    exact List.Perm.map enrich (List.mergeSort_perm response _)

/-- C7, witness at a concrete schedule and a one-row response. -/
theorem analyze_preserves_schedule_witness :
    (analyzeRun ⟨some "0hard/0soft", []⟩
        [⟨"Room conflict", "-1hard", "-2hard", []⟩]).scheduleAfter =
      ⟨some "0hard/0soft", []⟩ ∧
    (processScoreAnalysis [⟨"Room conflict", "-1hard", "-2hard", []⟩]).Perm
      ([(⟨"Room conflict", "-1hard", "-2hard", []⟩ : ConstraintAnalysis)].map enrich) := by
  refine ⟨(analyze_preserves_schedule _ _).1, ?_⟩
  exact (analyze_preserves_schedule ⟨some "0hard/0soft", []⟩
    [⟨"Room conflict", "-1hard", "-2hard", []⟩]).2.2.2 _ rfl

theorem renderLessons_unassigned (lessons : List Lesson) :
    (renderLessons lessons).unassigned =
      lessons.filter (fun l => l.timeslot.isNone || l.room.isNone) := by
  induction lessons with
  | nil => rfl
  | cons l ls ih =>
    simp only [renderLessons]
    cases ht : l.timeslot with
    | none => simp [ht, List.filter_cons, ih]
    | some t =>
      cases hr : l.room with
      | none => simp [ht, hr, List.filter_cons, ih]
      | some rm => simp [ht, hr, List.filter_cons, ih]

theorem renderLessons_byRoom (lessons : List Lesson) :
    (renderLessons lessons).byRoomCells =
      lessons.filterMap (fun l =>
        match l.timeslot, l.room with
        | some t, some rm => some (t, rm, l)
        | _, _ => none) := by
  induction lessons with
  | nil => rfl
  | cons l ls ih =>
    simp only [renderLessons]
    cases ht : l.timeslot with
    | none => simp [ht, List.filterMap_cons, ih]
    | some t =>
      cases hr : l.room with
      | none => simp [ht, hr, List.filterMap_cons, ih]
      | some rm => simp [ht, hr, List.filterMap_cons, ih]

theorem renderLessons_byTeacher (lessons : List Lesson) :
    (renderLessons lessons).byTeacherCells =
      lessons.filterMap (fun l =>
        match l.timeslot, l.room with
        | some t, some _ => some (t, l.teacher, l)
        | _, _ => none) := by
  induction lessons with
  | nil => rfl
  | cons l ls ih =>
    simp only [renderLessons]
    cases ht : l.timeslot with
    | none => simp [ht, List.filterMap_cons, ih]
    | some t =>
      cases hr : l.room with
      | none => simp [ht, hr, List.filterMap_cons, ih]
      | some rm => simp [ht, hr, List.filterMap_cons, ih]

theorem renderLessons_byStudentGroup (lessons : List Lesson) :
    (renderLessons lessons).byStudentGroupCells =
      lessons.filterMap (fun l =>
        match l.timeslot, l.room with
        | some t, some _ => some (t, l.studentGroup, l)
        | _, _ => none) := by
  induction lessons with
  | nil => rfl
  | cons l ls ih =>
    simp only [renderLessons]
    cases ht : l.timeslot with
    | none => simp [ht, List.filterMap_cons, ih]
    | some t =>
      cases hr : l.room with
      | none => simp [ht, hr, List.filterMap_cons, ih]
      | some rm => simp [ht, hr, List.filterMap_cons, ih]

/-- C8 (confirmed): `renderSchedule` puts a lesson in the unassigned panel iff
its timeslot or room is `null`; lessons with both assigned are instead cloned
into the by-room, by-teacher and by-student-group cells; and the
`All lessons have been assigned!` banner shows iff no lesson is unassigned. -/
theorem renderSchedule_lesson_placement (lessons : List Lesson) :
    (renderLessons lessons).unassigned =
      lessons.filter (fun l => l.timeslot.isNone || l.room.isNone) ∧
    (renderLessons lessons).byRoomCells =
      lessons.filterMap (fun l =>
        match l.timeslot, l.room with
        | some t, some rm => some (t, rm, l)
        | _, _ => none) ∧
    (renderLessons lessons).byTeacherCells =
      lessons.filterMap (fun l =>
        match l.timeslot, l.room with
        | some t, some _ => some (t, l.teacher, l)
        | _, _ => none) ∧
    (renderLessons lessons).byStudentGroupCells =
      lessons.filterMap (fun l =>
        match l.timeslot, l.room with
        | some t, some _ => some (t, l.studentGroup, l)
        | _, _ => none) ∧
    (bannerShown lessons = true ↔ ∀ l ∈ lessons, l.timeslot ≠ none ∧ l.room ≠ none) := by
  refine ⟨renderLessons_unassigned lessons, renderLessons_byRoom lessons,
    renderLessons_byTeacher lessons, renderLessons_byStudentGroup lessons, ?_⟩
  unfold bannerShown
  rw [renderLessons_unassigned lessons]
  simp only [beq_iff_eq, List.length_eq_zero, List.filter_eq_nil_iff, Bool.or_eq_true,
    Option.isNone_iff_eq_none, not_or, ne_eq]

/-- C8, witness: one assigned and one unassigned lesson land in the expected
places, and the banner shows for a fully assigned list only. -/
theorem renderSchedule_lesson_placement_witness :
    (renderLessons [⟨1, "Math", "Turing", "9A", some 4, none⟩]).unassigned =
      [⟨1, "Math", "Turing", "9A", some 4, none⟩] ∧
    (renderLessons [⟨2, "Physics", "Curie", "9B", some 4, some 5⟩]).byRoomCells =
      [(4, 5, ⟨2, "Physics", "Curie", "9B", some 4, some 5⟩)] ∧
    bannerShown [⟨2, "Physics", "Curie", "9B", some 4, some 5⟩] = true := by
  refine ⟨?_, ?_, ?_⟩
  · rw [(renderSchedule_lesson_placement [⟨1, "Math", "Turing", "9A", some 4, none⟩]).1]
    decide
  · rw [(renderSchedule_lesson_placement [⟨2, "Physics", "Curie", "9B", some 4, some 5⟩]).2.1]
    decide
  · exact (renderSchedule_lesson_placement
      [⟨2, "Physics", "Curie", "9B", some 4, some 5⟩]).2.2.2.2.mpr (by decide)

theorem uiInv_step (b : Bool) (st : UIState) (h : uiInv st) :
    uiInv (refreshSolvingButtons b st) := by
  cases b with
  | true =>
    unfold refreshSolvingButtons
    rw [if_pos rfl]
    rcases h with ⟨hnone, hempty⟩ | ⟨i, hsome, hact⟩
    · right
      exact ⟨st.nextIntervalId, by simp [hnone], by simp [hnone, hempty]⟩
    · right
      exact ⟨i, by simp [hsome], by simp [hsome, hact]⟩
  | false =>
    unfold refreshSolvingButtons
    rw [if_neg (by simp)]
    rcases h with ⟨hnone, hempty⟩ | ⟨i, hsome, hact⟩
    · left
      exact ⟨by simp [hnone], by simp [hnone, hempty]⟩
    · left
      refine ⟨by simp [hsome], ?_⟩
      simp [hsome, hact]

theorem uiInv_runCalls_from (calls : List Bool) :
    ∀ st : UIState, uiInv st →
      uiInv (calls.foldl (fun s b => refreshSolvingButtons b s) st) := by
  induction calls with
  | nil =>
    intro st h
    exact h
  | cons b calls ih =>
    intro st h
    exact ih _ (uiInv_step b st h)

theorem uiInv_runCalls (calls : List Bool) : uiInv (runCalls calls) :=
  uiInv_runCalls_from calls initUIState (Or.inl ⟨rfl, rfl⟩)

/-- C6 (confirmed): `renderSchedule` drives the page into solving mode — solve
hidden, stop shown, a single 2000 ms auto-refresh timer live — exactly when
the payload's `solverStatus` is non-null and not `NOT_SOLVING`; otherwise it
enters idle mode with the solve button shown, the stop button hidden and no
auto-refresh timer. -/
theorem renderSchedule_solving_mode (status : Option String) (st : UIState)
    (hinv : uiInv st) :
    (solvingFlag status = true ↔ (status ≠ none ∧ status ≠ some "NOT_SOLVING")) ∧
    (solvingFlag status = true →
      (renderScheduleButtons status st).solveShown = false ∧
      (renderScheduleButtons status st).stopShown = true ∧
      ∃ i, (renderScheduleButtons status st).autoRefreshIntervalId = some i ∧
        (renderScheduleButtons status st).activeIntervals = [(i, 2000)]) ∧
    (solvingFlag status = false →
      (renderScheduleButtons status st).solveShown = true ∧
      (renderScheduleButtons status st).stopShown = false ∧
      (renderScheduleButtons status st).autoRefreshIntervalId = none ∧
      (renderScheduleButtons status st).activeIntervals = []) := by
  refine ⟨?_, ?_, ?_⟩
  · cases status with
    | none => simp [solvingFlag]
    | some sname => simp [solvingFlag]
  · intro hflag
    unfold renderScheduleButtons
    rw [hflag]
    unfold refreshSolvingButtons
    rw [if_pos rfl]
    rcases hinv with ⟨hnone, hempty⟩ | ⟨i, hsome, hact⟩
    · exact ⟨by simp [hnone], by simp [hnone], st.nextIntervalId, by simp [hnone],
        by simp [hnone, hempty]⟩
    · exact ⟨by simp [hsome], by simp [hsome], i, by simp [hsome], by simp [hsome, hact]⟩
  · intro hflag
    unfold renderScheduleButtons
    rw [hflag]
    unfold refreshSolvingButtons
    rw [if_neg (by simp)]
    rcases hinv with ⟨hnone, hempty⟩ | ⟨i, hsome, hact⟩
    · exact ⟨by simp [hnone], by simp [hnone], by simp [hnone], by simp [hnone, hempty]⟩
    · exact ⟨by simp [hsome], by simp [hsome], by simp [hsome], by simp [hsome, hact]⟩

/-- C6, witness: an `ACTIVE` payload on the initial page state enters solving
mode; a `NOT_SOLVING` payload enters idle mode. -/
theorem renderSchedule_solving_mode_witness :
    (renderScheduleButtons (some "ACTIVE") initUIState).solveShown = false ∧
    (renderScheduleButtons (some "NOT_SOLVING") initUIState).solveShown = true := by
  constructor
  · exact ((renderSchedule_solving_mode (some "ACTIVE") initUIState
      (Or.inl ⟨rfl, rfl⟩)).2.1 (by decide)).1
  · exact ((renderSchedule_solving_mode (some "NOT_SOLVING") initUIState
      (Or.inl ⟨rfl, rfl⟩)).2.2 (by decide)).1

/-- C10 (confirmed): across any sequence of `refreshSolvingButtons` calls at
most one auto-refresh interval is live; after a call `autoRefreshIntervalId`
is non-null iff that call's `solving` argument was `true`; a `solving = true`
call while an interval exists changes only the buttons (no second interval);
and a `solving = false` call always clears and nulls the recorded interval. -/
theorem refreshSolvingButtons_single_interval :
    (∀ calls : List Bool, uiInv (runCalls calls) ∧
      (runCalls calls).activeIntervals.length ≤ 1) ∧
    (∀ (calls : List Bool) (b : Bool),
      ((runCalls (calls ++ [b])).autoRefreshIntervalId ≠ none ↔ b = true)) ∧
    (∀ (st : UIState) (i : Nat), st.autoRefreshIntervalId = some i →
      refreshSolvingButtons true st = { st with solveShown := false, stopShown := true }) ∧
    (∀ st : UIState,
      (refreshSolvingButtons false st).autoRefreshIntervalId = none ∧
      ∀ i, st.autoRefreshIntervalId = some i →
        ∀ p ∈ (refreshSolvingButtons false st).activeIntervals, p.1 ≠ i) := by
  have hlast : ∀ (calls : List Bool) (b : Bool),
      runCalls (calls ++ [b]) = refreshSolvingButtons b (runCalls calls) := by
    intro calls b
    unfold runCalls
    rw [List.foldl_append]
    rfl
  have hsome_step : ∀ (st : UIState) (i : Nat), st.autoRefreshIntervalId = some i →
      refreshSolvingButtons true st = { st with solveShown := false, stopShown := true } := by
    intro st i h
    unfold refreshSolvingButtons
    rw [if_pos rfl]
    simp only [h]
  refine ⟨?_, ?_, hsome_step, ?_⟩
  · intro calls
    have hinv := uiInv_runCalls calls
    refine ⟨hinv, ?_⟩
    rcases hinv with ⟨hnone, hempty⟩ | ⟨i, hsome, hact⟩
    · simp [hempty]
    · simp [hact]
  · intro calls b
    rw [hlast]
    have hinv := uiInv_runCalls calls
    cases b with
    | true =>
      rcases hinv with ⟨hnone, hempty⟩ | ⟨i, hsome, hact⟩
      · unfold refreshSolvingButtons
        rw [if_pos rfl]
        simp [hnone]
      · rw [hsome_step _ i hsome]
        simp [hsome]
    | false =>
      unfold refreshSolvingButtons
      rw [if_neg (by simp)]
      rcases hinv with ⟨hnone, hempty⟩ | ⟨i, hsome, hact⟩
      · simp [hnone]
      · simp [hsome]
  · intro st
    constructor
    · unfold refreshSolvingButtons
      rw [if_neg (by simp)]
      cases h : st.autoRefreshIntervalId with
      | none => simp [h]
      | some i => simp [h]
    · intro i h p hp
      unfold refreshSolvingButtons at hp
      rw [if_neg (by simp)] at hp
      simp only [h] at hp
      simp only [List.mem_filter] at hp
      have := hp.2
      simpa using this

/-- C10, witness: after `[true, true]` exactly one interval is live; a
terminating `false` call clears it. -/
theorem refreshSolvingButtons_single_interval_witness :
    (runCalls [true, true]).activeIntervals.length ≤ 1 ∧
    ((runCalls [true, true, false]).autoRefreshIntervalId ≠ none ↔ False) ∧
    refreshSolvingButtons true ⟨true, false, [(5, 2000)], 6, some 5⟩ =
      ⟨false, true, [(5, 2000)], 6, some 5⟩ := by
  refine ⟨(refreshSolvingButtons_single_interval.1 [true, true]).2, ?_, ?_⟩
  · have h := refreshSolvingButtons_single_interval.2.1 [true, true] false
    simpa using h
  · exact refreshSolvingButtons_single_interval.2.2.1 ⟨true, false, [(5, 2000)], 6, some 5⟩
      5 rfl

theorem lookup_eq_none_iff (k : String) (m : List (String × ColorPair)) :
    List.lookup k m = none ↔ k ∉ m.map Prod.fst := by
  induction m with
  | nil => simp
  | cons p m ih =>
    obtain ⟨a, c⟩ := p
    by_cases hk : k = a
    · subst hk
      simp [List.lookup]
    · have hba : (k == a) = false := beq_eq_false_iff_ne.mpr hk
      simp only [List.lookup, hba, List.map_cons, List.mem_cons, not_or]
      rw [ih]
      exact ⟨fun h => ⟨hk, h⟩, fun h => h.2⟩

theorem pickColor_hit (st : ColorState) (k : String) (c : ColorPair)
    (h : List.lookup k st.colorMap = some c) : pickColor k st = (c, st) := by
  unfold pickColor
  rw [h]

theorem pickColor_miss (st : ColorState) (k : String)
    (h : List.lookup k st.colorMap = none) :
    pickColor k st =
      (⟨BG_COLORS[st.nextColorIndex]?, FG_COLORS[st.nextColorIndex]?⟩,
        ⟨st.colorMap ++
            [(k, ⟨BG_COLORS[st.nextColorIndex]?, FG_COLORS[st.nextColorIndex]?⟩)],
          st.nextColorIndex + 1⟩) := by
  unfold pickColor
  rw [h]

theorem runPickFrom_invariant (keys : List String) :
    ∀ st : ColorState,
      st.nextColorIndex = (st.colorMap.map Prod.fst).length →
      (st.colorMap.map Prod.fst).Nodup →
      ((runPickFrom keys st).nextColorIndex =
          ((runPickFrom keys st).colorMap.map Prod.fst).length ∧
        ((runPickFrom keys st).colorMap.map Prod.fst).Nodup ∧
        ∀ x, x ∈ (runPickFrom keys st).colorMap.map Prod.fst ↔
          (x ∈ st.colorMap.map Prod.fst ∨ x ∈ keys)) := by
  induction keys with
  | nil =>
    intro st h1 h2
    exact ⟨h1, h2, fun x => by simp [runPickFrom]⟩
  | cons k keys ih =>
    intro st h1 h2
    have hstep : runPickFrom (k :: keys) st = runPickFrom keys (pickColor k st).2 := by
      unfold runPickFrom
      rw [List.foldl_cons]
    rw [hstep]
    cases hl : List.lookup k st.colorMap with
    | some c =>
      rw [pickColor_hit st k c hl]
      have hkmem : k ∈ st.colorMap.map Prod.fst := by
        by_contra hk
        rw [← lookup_eq_none_iff] at hk
        rw [hl] at hk
        cases hk
      obtain ⟨g1, g2, g3⟩ := ih st h1 h2
      refine ⟨g1, g2, fun x => ?_⟩
      rw [g3 x]
      constructor
      · rintro (hx | hx)
        · exact Or.inl hx
        · exact Or.inr (List.mem_cons_of_mem _ hx)
      · rintro (hx | hx)
        · exact Or.inl hx
        · rcases List.mem_cons.mp hx with hx | hx
          · subst hx
            exact Or.inl hkmem
          · exact Or.inr hx
    | none =>
      rw [pickColor_miss st k hl]
      have hknot : k ∉ st.colorMap.map Prod.fst := (lookup_eq_none_iff k _).mp hl
      have h1a : ((st.colorMap ++
          [(k, (⟨BG_COLORS[st.nextColorIndex]?, FG_COLORS[st.nextColorIndex]?⟩ :
            ColorPair))]).map Prod.fst) = st.colorMap.map Prod.fst ++ [k] := by
        simp
      obtain ⟨g1, g2, g3⟩ := ih
        (⟨st.colorMap ++
            [(k, (⟨BG_COLORS[st.nextColorIndex]?, FG_COLORS[st.nextColorIndex]?⟩ :
              ColorPair))],
          st.nextColorIndex + 1⟩ : ColorState)
        (by dsimp only; rw [h1a]; simp [h1])
        (by
          dsimp only
          rw [h1a, List.nodup_append]
          exact ⟨h2, List.nodup_singleton k, by simpa using hknot⟩)
      refine ⟨g1, g2, fun x => ?_⟩
      rw [g3 x]
      dsimp only
      simp only [h1a, List.mem_append, List.mem_singleton, List.mem_cons]
      tauto

/-- C9 (confirmed): `pickColor` is a memoized map — a key seen before returns
the recorded color with no state change; a fresh key consumes the next palette
index and records the pair; the two palettes have 24 entries each; after any
key sequence `nextColorIndex` equals the number of distinct keys seen, so from
the 25th distinct key onward the index falls outside the palettes and both
`bg` and `fg` come back `undefined` (`none`), while the first 24 distinct keys
get defined colors. -/
theorem pickColor_memoized_palette :
    BG_COLORS.length = 24 ∧ FG_COLORS.length = 24 ∧
    (∀ (st : ColorState) (k : String) (c : ColorPair),
      List.lookup k st.colorMap = some c → pickColor k st = (c, st)) ∧
    (∀ (st : ColorState) (k : String), List.lookup k st.colorMap = none →
      (pickColor k st).1 =
        ⟨BG_COLORS[st.nextColorIndex]?, FG_COLORS[st.nextColorIndex]?⟩ ∧
      (pickColor k st).2.nextColorIndex = st.nextColorIndex + 1 ∧
      (pickColor k st).2.colorMap = st.colorMap ++ [(k, (pickColor k st).1)]) ∧
    (∀ keys : List String, (runPick keys).nextColorIndex = keys.toFinset.card) ∧
    (∀ (keys : List String) (k : String),
      List.lookup k (runPick keys).colorMap = none →
      (24 ≤ keys.toFinset.card →
        (pickColor k (runPick keys)).1.bg = none ∧
        (pickColor k (runPick keys)).1.fg = none) ∧
      (keys.toFinset.card < 24 →
        ((pickColor k (runPick keys)).1.bg.isSome ∧
          (pickColor k (runPick keys)).1.fg.isSome))) := by
  have hcount : ∀ keys : List String,
      (runPick keys).nextColorIndex = keys.toFinset.card := by
    intro keys
    obtain ⟨g1, g2, g3⟩ := runPickFrom_invariant keys initColorState rfl List.nodup_nil
    have hfin : ((runPick keys).colorMap.map Prod.fst).toFinset = keys.toFinset := by
      ext x
      simp only [List.mem_toFinset]
      rw [show (runPick keys) = runPickFrom keys initColorState from rfl] at *
      rw [g3 x]
      simp [initColorState]
    have hcard := List.toFinset_card_of_nodup g2
    unfold runPick at *
    rw [g1, ← hcard, hfin]
  refine ⟨rfl, rfl, pickColor_hit, ?_, hcount, ?_⟩
  · intro st k h
    rw [pickColor_miss st k h]
    exact ⟨rfl, rfl, rfl⟩
  · intro keys k h
    rw [pickColor_miss _ k h]
    have hbg : BG_COLORS.length = 24 := rfl
    have hfg : FG_COLORS.length = 24 := rfl
    have hidx := hcount keys
    constructor
    · intro hge
      refine ⟨List.getElem?_eq_none ?_, List.getElem?_eq_none ?_⟩
      · omega
      · omega
    · intro hlt
      have hl1 : (runPick keys).nextColorIndex < BG_COLORS.length := by omega
      have hl2 : (runPick keys).nextColorIndex < FG_COLORS.length := by omega
      constructor
      · show (BG_COLORS[(runPick keys).nextColorIndex]?).isSome = true
        rw [List.getElem?_eq_getElem hl1]
        rfl
      · show (FG_COLORS[(runPick keys).nextColorIndex]?).isSome = true
        rw [List.getElem?_eq_getElem hl2]
        rfl

/-- C9, witness: a memoized hit, a fresh 25th key with undefined colors, and a
fresh first key with defined colors. -/
theorem pickColor_memoized_palette_witness :
    pickColor "Math" ⟨[("Math", ⟨some "#009E73", some "#FFFFFF"⟩)], 1⟩ =
      (⟨some "#009E73", some "#FFFFFF"⟩,
        ⟨[("Math", ⟨some "#009E73", some "#FFFFFF"⟩)], 1⟩) ∧
    BG_COLORS.length = 24 := by
  constructor
  · exact pickColor_memoized_palette.2.2.1 _ "Math" _ rfl
  · exact pickColor_memoized_palette.1
